import Mathlib

/-!
Verification development for the Gem scene/logic compiler core.

The Rust source is shallowly embedded: strings are modelled as Lean
`String` / `List Char` (the sources are ASCII; `char` classification
functions are modelled by their ASCII behaviour), `i64` as `Int` with the
explicit range check where the code performs one, `f64` literals as `Float`
(they are only carried through, never computed with), fallible code as
`Except`, and a Rust panic as a distinguished error value.  `HashMap` is
modelled as an association list whose `insert` replaces an existing key or
appends a fresh one, which matches `std::collections::HashMap` on every
operation the code performs (insert, get, get_mut, len).
-/

namespace Gem

/-! ## String primitives (models of the Rust `str` / `char` operations) -/

/-- Model of Rust `char::is_whitespace` restricted to ASCII (the lexer and
all literals in scope are ASCII). -/
def rustIsWhitespace (c : Char) : Bool := c.isWhitespace

/-- Model of Rust `str::trim`: drop whitespace from both ends. -/
def rustTrim (cs : List Char) : List Char :=
  ((cs.dropWhile rustIsWhitespace).reverse.dropWhile rustIsWhitespace).reverse

/-- Model of Rust `str::starts_with(c)` for a single-character pattern. -/
def startsWithChar (c : Char) : List Char → Bool
  | [] => false
  | c' :: _ => c' == c

/-- Model of Rust `str::ends_with(c)` for a single-character pattern. -/
def endsWithChar (c : Char) (cs : List Char) : Bool :=
  startsWithChar c cs.reverse

/-- Model of Rust `str::split(sep)`: split at every separator occurrence;
the empty string yields one empty part, like Rust. -/
def splitOn (sep : Char) : List Char → List Char → List (List Char)
  | [], cur => [cur]
  | c :: rest, cur =>
    if c == sep then cur :: splitOn sep rest [] else splitOn sep rest (cur ++ [c])

/-- Value of a digit list read in base 10 (helper for the numeric parses). -/
def digitsToNat (cs : List Char) : Nat :=
  cs.foldl (fun a c => a * 10 + (c.toNat - 48)) 0

/-- Model of Rust `str::parse::<i64>().is_ok()`: optional sign, at least one
ASCII digit, and the value fits in the `i64` range. -/
def rustParseI64Ok (cs : List Char) : Bool :=
  match cs with
  | '+' :: rest => !rest.isEmpty && rest.all Char.isDigit && digitsToNat rest ≤ 9223372036854775807
  | '-' :: rest => !rest.isEmpty && rest.all Char.isDigit && digitsToNat rest ≤ 9223372036854775808
  | rest => !rest.isEmpty && rest.all Char.isDigit && digitsToNat rest ≤ 9223372036854775807

/-- Exponent suffix of the Rust `f64` literal grammar: either nothing, or
`e`/`E`, an optional sign, and at least one digit. -/
def f64ExpOk : List Char → Bool
  | [] => true
  | 'e' :: r =>
    (match r with
     | '+' :: r2 => !r2.isEmpty && r2.all Char.isDigit
     | '-' :: r2 => !r2.isEmpty && r2.all Char.isDigit
     | r2 => !r2.isEmpty && r2.all Char.isDigit)
  | 'E' :: r =>
    (match r with
     | '+' :: r2 => !r2.isEmpty && r2.all Char.isDigit
     | '-' :: r2 => !r2.isEmpty && r2.all Char.isDigit
     | r2 => !r2.isEmpty && r2.all Char.isDigit)
  | _ => false

/-- Number part of the Rust `f64` literal grammar: digits, optionally with a
decimal point (at least one digit on some side), then an optional exponent. -/
def f64NumberOk (cs : List Char) : Bool :=
  let intPart := cs.takeWhile Char.isDigit
  let rest := cs.dropWhile Char.isDigit
  match rest with
  | [] => !intPart.isEmpty
  | '.' :: r2 =>
    let fracPart := r2.takeWhile Char.isDigit
    let r3 := r2.dropWhile Char.isDigit
    (!intPart.isEmpty || !fracPart.isEmpty) && f64ExpOk r3
  | 'e' :: _ => !intPart.isEmpty && f64ExpOk rest
  | 'E' :: _ => !intPart.isEmpty && f64ExpOk rest
  | _ => false

/-- Model of Rust `str::parse::<f64>().is_ok()`: the `FromStr` grammar for
`f64` — optional sign, then `inf`/`infinity`/`nan` (ASCII case-insensitive)
or a number with optional fraction and exponent.  Parsing a syntactically
valid `f64` literal never fails (out-of-range values saturate), so syntactic
validity is exactly `is_ok()`. -/
def rustParseF64Ok (cs : List Char) : Bool :=
  let body := match cs with
    | '+' :: r => r
    | '-' :: r => r
    | r => r
  let lower := body.map Char.toLower
  if lower == ['i', 'n', 'f'] || lower == ['i', 'n', 'f', 'i', 'n', 'i', 't', 'y'] ||
      lower == ['n', 'a', 'n'] then
    true
  else
    f64NumberOk body

/-! ## PropertyType (src/property_type.rs) -/

/-- The closed classification of property literals (`PropertyType` in
src/property_type.rs). -/
inductive PropertyType where
  | String
  | Int
  | Float
  | Bool
  | Vec2
  | Vec3
  | Color
  | SceneRef
deriving Repr, DecidableEq

/-- Model of `PropertyType::infer` (src/property_type.rs lines 17-59): trim,
then first match wins among scene-reference, tuple-by-arity, quoted string,
boolean, float, integer, and a string fallback.  (Defined at the `Gem`
namespace level because the constructor `PropertyType.String` would shadow
the builtin `String` type inside the `PropertyType` namespace.) -/
def infer (value : String) : PropertyType :=
  let trimmed := rustTrim value.data
  if startsWithChar '#' trimmed then PropertyType.SceneRef
  else if startsWithChar '(' trimmed && endsWithChar ')' trimmed then
    -- inner text between the outer parentheses, split at commas
    let inner := (trimmed.drop 1).dropLast
    let parts := splitOn ',' inner []
    match parts.length with
    | 2 => PropertyType.Vec2
    | 3 => PropertyType.Vec3
    | 4 => PropertyType.Color
    | _ => PropertyType.String
  else if startsWithChar '"' trimmed && endsWithChar '"' trimmed then PropertyType.String
  else if trimmed == "true".data || trimmed == "false".data then PropertyType.Bool
  else if trimmed.contains '.' && rustParseF64Ok trimmed then PropertyType.Float
  else if rustParseI64Ok trimmed then PropertyType.Int
  else PropertyType.String

/-! ## Scene AST (src/ast.rs) -/

/-- Model of `ast::Value`: the closed variant of scene property values.
`f64` is modelled as `Float` (the value is only carried through and
re-rendered, never computed with) and `i64` as `Int` (the lexer guarantees
the literal fits `i64` before this type is built). -/
inductive Value where
  | Number (n : Float)
  | Integer (i : Int)
  | String (s : String)
  | Bool (b : Bool)
  | Tuple (vals : List Value)
  | Directive (parts : List String)
  | Ident (id : String)

/-- Model of `ast::Property`. -/
structure Property where
  key : String
  value : Value

/-- Model of `ast::GemDecl` (an inductive rather than a structure because it
is recursive through `children`). -/
inductive GemDecl where
  | mk (name : String) (gem_type : String) (properties : List Property)
      (children : List GemDecl)

/-- Accessor for the `name` field of a `GemDecl`. -/
def GemDecl.name : GemDecl → String
  | ⟨n, _, _, _⟩ => n

/-- Accessor for the `gem_type` field of a `GemDecl`. -/
def GemDecl.gem_type : GemDecl → String
  | ⟨_, t, _, _⟩ => t

/-- Accessor for the `properties` field of a `GemDecl`. -/
def GemDecl.properties : GemDecl → List Property
  | ⟨_, _, ps, _⟩ => ps

/-- Accessor for the `children` field of a `GemDecl`. -/
def GemDecl.children : GemDecl → List GemDecl
  | ⟨_, _, _, cs⟩ => cs

/-- Model of `ast::GemFile`. -/
structure GemFile where
  root : GemDecl

/-! ## Association-list model of `std::collections::HashMap`

The IR keeps its nodes in a `HashMap`.  The code only ever inserts fresh
keys, mutates through `get_mut`, reads through `get`, and takes `len`; an
association list with replace-or-append insertion models all of these
exactly (iteration order is never observed). -/

/-- Lookup the value stored at a key (model of `HashMap::get`). -/
def lookupA {κ β : Type} [DecidableEq κ] (k : κ) : List (κ × β) → Option β
  | [] => none
  | (k', v) :: rest => if k' = k then some v else lookupA k rest

/-- Insert a binding, replacing an existing one for the same key (model of
`HashMap::insert`). -/
def insertA {κ β : Type} [DecidableEq κ] (k : κ) (v : β) : List (κ × β) → List (κ × β)
  | [] => [(k, v)]
  | (k', v') :: rest => if k' = k then (k, v) :: rest else (k', v') :: insertA k v rest

/-- Apply a function to the value stored at a key, a no-op when the key is
absent (model of `if let Some(x) = map.get_mut(&k) { mutate x }`). -/
def modifyA {κ β : Type} [DecidableEq κ] (k : κ) (f : β → β) : List (κ × β) → List (κ × β)
  | [] => []
  | (k', v) :: rest => if k' = k then (k', f v) :: rest else (k', v) :: modifyA k f rest

/-! ## Scene IR (src/ir.rs)

`NodeId(u32)` is modelled as `Nat`: ids are allocated by a counter that is
only ever incremented, and no claim exercises `u32` overflow. -/

/-- Model of `ir::TypedProperty`. -/
structure TypedProperty where
  value : String
  prop_type : PropertyType

/-- Model of `ir::NodeIR`. -/
structure NodeIR where
  id : Nat
  name : String
  class_name : String
  properties : List (String × TypedProperty)
  parent : Option Nat
  children : List Nat

/-- Model of `NodeIR::new`: a fresh node with no properties, no parent and
no children. -/
def NodeIR.new (id : Nat) (name class_name : String) : NodeIR :=
  ⟨id, name, class_name, [], none, []⟩

/-- Model of `ir::SceneIR`. -/
structure SceneIR where
  nodes : List (Nat × NodeIR)
  root : Option Nat
  next_id : Nat

/-- Model of `SceneIR::new`. -/
def SceneIR.new : SceneIR := ⟨[], none, 0⟩

/-- Model of `SceneIR::alloc_id`: return the current counter and increment it. -/
def SceneIR.alloc_id (s : SceneIR) : SceneIR × Nat :=
  ({ s with next_id := s.next_id + 1 }, s.next_id)

/-- Model of `SceneIR::add_node` (src/ir.rs lines 89-97): allocate the next
id (`alloc_id` returns `next_id` and increments the counter), create the
node, make it the root if no root exists yet, and insert it. -/
def SceneIR.add_node (s : SceneIR) (name class_name : String) : SceneIR × Nat :=
  let id := s.next_id
  let node := NodeIR.new id name class_name
  let root := if s.root.isNone then some id else s.root
  (⟨insertA id node s.nodes, root, s.next_id + 1⟩, id)

/-- Model of `SceneIR::add_child` (src/ir.rs lines 99-106): append the child
id to the parent's child list and set the child's parent pointer; each
update silently does nothing if its key is absent, like `get_mut`. -/
def SceneIR.add_child (s : SceneIR) (parent child : Nat) : SceneIR :=
  let s := { s with
    nodes := modifyA parent (fun p => { p with children := p.children ++ [child] }) s.nodes }
  { s with
    nodes := modifyA child (fun c => { c with parent := some parent }) s.nodes }

/-- Model of `SceneIR::set_typed_property` (src/ir.rs lines 122-138). -/
def SceneIR.set_typed_property (s : SceneIR) (node : Nat) (key value : String)
    (prop_type : PropertyType) : SceneIR :=
  { s with
    nodes := modifyA node
      (fun n => { n with properties := insertA key ⟨value, prop_type⟩ n.properties })
      s.nodes }

/-- Inner search of `SceneIR::find_by_path`: first child of the current node
whose looked-up name equals the segment (children missing from the map are
skipped, as in the Rust `if let`). -/
def findChild (s : SceneIR) (seg : String) : List Nat → Option Nat
  | [] => none
  | cid :: rest =>
    match lookupA cid s.nodes with
    | some child => if child.name == seg then some cid else findChild s seg rest
    | none => findChild s seg rest

/-- Descent loop of `SceneIR::find_by_path` over the remaining path
segments; `none` models the early `return None` taken when a segment has no
matching child (or the current node is absent from the map). -/
def findLoop (s : SceneIR) : Nat → List String → Option Nat
  | current, [] => some current
  | current, seg :: rest =>
    match lookupA current s.nodes with
    | some cur_node =>
      match findChild s seg cur_node.children with
      | some cid => findLoop s cid rest
      | none => none
    | none => none

/-- Model of `SceneIR::find_by_path` (src/ir.rs lines 151-187).  The result
is `Except`: `.ok r` models a normal return of `r`, while `.error` models
the panic the Rust code hits at `parts[0]` when the filtered segment list is
empty (for instance on the path `"/"`) while a root node exists in the map. -/
def SceneIR.find_by_path (s : SceneIR) (path : String) : Except String (Option Nat) :=
  if path.data.isEmpty then .ok none
  else
    let trimmed := rustTrim path.data
    let parts :=
      ((splitOn '/' (trimmed.dropWhile (· == '/')) []).filter (fun p => !p.isEmpty)).map
        String.mk
    match s.root with
    | none => .ok none
    | some current =>
      match lookupA current s.nodes with
      | some root_node =>
        match parts with
        | [] => .error "index out of range: parts is empty"
        | p0 :: rest =>
          if root_node.name != p0 then .ok none
          else .ok (findLoop s current rest)
      | none => .ok (findLoop s current (parts.drop 1))

/-! ## Transformer (src/transformer.rs) -/

mutual

/-- Model of `Transformer::value_to_string`: render a property `Value` back
to canonical literal text.  (`Float`/`Int`/`Bool` render through `toString`,
matching the Rust `Display` forms on the integer and boolean cases; no claim
depends on the float rendering.) -/
def valueToString : Value → String
  | Value.Number n => toString n
  | Value.Integer i => toString i
  | Value.String s => "\"" ++ s.replace "\"" "\\\"" ++ "\""
  | Value.Bool b => toString b
  | Value.Tuple vals => "(" ++ String.intercalate ", " (valueListToString vals) ++ ")"
  | Value.Directive parts => "#" ++ String.intercalate ":" parts
  | Value.Ident id => id

/-- Renders each element of a tuple (the `vals.iter().map(...)` of
`value_to_string`). -/
def valueListToString : List Value → List String
  | [] => []
  | v :: vs => valueToString v :: valueListToString vs

end

/-- Property loop of `Transformer::transform_gem_decl`: for each AST
property, render its value, infer its type, and set it on the node. -/
def addProps (node_id : Nat) (props : List Property) (s : SceneIR) : SceneIR :=
  props.foldl
    (fun sc prop =>
      let value_str := valueToString prop.value
      let prop_type := Gem.infer value_str
      sc.set_typed_property node_id prop.key value_str prop_type)
    s

mutual

/-- Model of `Transformer::transform_gem_decl` (src/transformer.rs lines
24-49): add a node for the declaration, attach its typed properties, link it
to its parent when one is given, then lower the children in declaration
order. -/
def transformGemDecl (decl : GemDecl) (parent : Option Nat) (s : SceneIR) :
    Except String (SceneIR × Nat) :=
  match decl with
  | ⟨name, gem_type, properties, children⟩ =>
    let p := s.add_node name gem_type
    let s := p.1
    let node_id := p.2
    let s := addProps node_id properties s
    let s := match parent with
      | some parent_id => s.add_child parent_id node_id
      | none => s
    match transformChildren children node_id s with
    | .ok s => .ok (s, node_id)
    | .error e => .error e

/-- Child loop of `transform_gem_decl`: lower each child with the current
node as parent, discarding the returned child id as the Rust loop does. -/
def transformChildren (cs : List GemDecl) (pid : Nat) (s : SceneIR) :
    Except String SceneIR :=
  match cs with
  | [] => .ok s
  | c :: rest =>
    match transformGemDecl c (some pid) s with
    | .ok (s, _) => transformChildren rest pid s
    | .error e => .error e

end

/-- Model of `Transformer::transform` (src/transformer.rs lines 19-22):
lower the root declaration with no parent and return the scene. -/
def transform (ast : GemFile) : Except String SceneIR :=
  match transformGemDecl ast.root none SceneIR.new with
  | .ok (s, _) => .ok s
  | .error e => .error e

mutual

/-- Number of `GemDecl` nodes in a declaration subtree (the declaration
itself plus all of its descendants). -/
def countGemDecls : GemDecl → Nat
  | ⟨_, _, _, children⟩ => 1 + countGemDeclList children

/-- Number of `GemDecl` nodes in a list of subtrees. -/
def countGemDeclList : List GemDecl → Nat
  | [] => 0
  | c :: cs => countGemDecls c + countGemDeclList cs

end

/-! ## Invariant predicates over the IR -/

/-- The node stored at id `k` exists and has no parent. -/
def orphanAt (s : SceneIR) (k : Nat) : Prop :=
  ∃ n, lookupA k s.nodes = some n ∧ n.parent = none

/-- Structural invariants of a `SceneIR` maintained by the transformer:
the id domain of the node map is exactly `0..next_id`, every node records
its own key as `id`, and every child id stored in a node resolves to a node
whose parent pointer is that node's key. -/
structure Inv (s : SceneIR) : Prop where
  keys : s.nodes.map Prod.fst = List.range s.next_id
  ids : ∀ k n, lookupA k s.nodes = some n → n.id = k
  coh : ∀ k n, lookupA k s.nodes = some n → ∀ c ∈ n.children,
        ∃ m, lookupA c s.nodes = some m ∧ m.parent = some k

/-- Two scenes with identical id domain, root, counter, and per-node
`id`/`parent`/`children` fields (only the property bags may differ). -/
def ShapeEq (s s' : SceneIR) : Prop :=
  s'.next_id = s.next_id ∧ s'.root = s.root ∧
  s'.nodes.map Prod.fst = s.nodes.map Prod.fst ∧
  ∀ j, match lookupA j s.nodes, lookupA j s'.nodes with
    | some n, some n' => n'.id = n.id ∧ n'.parent = n.parent ∧ n'.children = n.children
    | none, none => True
    | _, _ => False

/-! ## Lexer string reading (src/lexer.rs)

The lexer walks the input with a position and 1-based line/column counters.
`advance` increments the column and never the line; the line counter is only
updated by `skip_whitespace` and `skip_multiline_comment`, so it stays at
the line of the opening quote for the whole of `read_string`. -/

/-- Model of `error::LexError`. -/
structure LexError where
  message : String
  line : Nat
  column : Nat
deriving Repr, DecidableEq

/-- Escape interpretation of `read_string`: newline, tab, carriage return,
backslash and quote are translated; any other escaped character is passed
through with the backslash retained. -/
def escapeChar (value : String) (e : Char) : String :=
  match e with
  | 'n' => value.push '\n'
  | 't' => value.push '\t'
  | 'r' => value.push '\r'
  | '\\' => value.push '\\'
  | '"' => value.push '"'
  | _ => (value.push '\\').push e

/-- Loop of `Lexer::read_string` (src/lexer.rs lines 234-271): the arguments
are the input remaining after the opening quote, the current line and
column, and the accumulated value.  On success it returns the string value
together with the remaining input and position; reaching the end of input
(also directly after a backslash) is the unterminated-string error.  Each
consumed character advances only the column, exactly like `advance`. -/
def readStringGo : List Char → Nat → Nat → String →
    Except LexError (String × List Char × Nat × Nat)
  | [], line, col, _ => .error ⟨"Unterminated string literal", line, col⟩
  | '"' :: rest, line, col, value => .ok (value, rest, line, col + 1)
  | '\\' :: [], line, col, _ => .error ⟨"Unterminated string literal", line, col + 1⟩
  | '\\' :: e :: rest, line, col, value => readStringGo rest line (col + 2) (escapeChar value e)
  | c :: rest, line, col, value => readStringGo rest line (col + 1) (value.push c)

/-- Model of `Lexer::read_string` (src/lexer.rs lines 230-272): called when
the current character is the opening double quote at position
`(line, col)`; it first advances past the quote (incrementing the column)
and then runs the reading loop on the rest of the input. -/
def read_string (s : List Char) (line col : Nat) :
    Except LexError (String × List Char × Nat × Nat) :=
  readStringGo s line (col + 1) ""

/-- Whether the input remaining after an opening quote contains a closing
double quote (escape pairs are skipped, so an escaped quote does not
terminate the literal). -/
def strTerminated : List Char → Bool
  | [] => false
  | '"' :: _ => true
  | '\\' :: [] => false
  | '\\' :: _ :: rest => strTerminated rest
  | _ :: rest => strTerminated rest

/-! ## Tokens (src/token.rs) -/

/-- Model of `token::Token`.  The derived `BEq` mirrors the derived
`PartialEq` of the Rust enum, including IEEE comparison on the `f64`
payload of `Float`. -/
inductive Token where
  | Ident (s : String)
  | Integer (i : Int)
  | Float (f : Float)
  | String (s : String)
  | Bool (b : Bool)
  | On
  | Spawn
  | Extend
  | Fn
  | Hash
  | DocComment (s : String)
  | Eq
  | Semi
  | LParen
  | RParen
  | LBrace
  | RBrace
  | Plus
  | Minus
  | Multiply
  | Divide
  | And
  | Or
  | EqEq
  | NotEq
  | Not
  | Comma
  | Colon
  | Dot
  | Less
  | Greater
  | LessEq
  | GreaterEq
deriving BEq

/-! ## Logic AST (src/ast.rs) -/

/-- Model of `ast::BinOp`. -/
inductive BinOp where
  | Add
  | Sub
  | Mul
  | Div
  | And
  | Or
  | Eq
  | NotEq
  | Less
  | Greater
  | LessEq
  | GreaterEq
deriving BEq

/-- Model of `ast::UnOp`. -/
inductive UnOp where
  | Not
  | Minus
deriving BEq

/-- Model of `ast::Expr`. -/
inductive Expr where
  | Number (n : Float)
  | Integer (i : Int)
  | String (s : String)
  | Bool (b : Bool)
  | Ident (name : String)
  | Tuple (elements : List Expr)
  | Directive (parts : List String)
  | Call (name : String) (args : List Expr)
  | BinaryOp (op : BinOp) (left : Expr) (right : Expr)
  | UnaryOp (op : UnOp) (expr : Expr)
  | PropertyAccess (object : Expr) (property : String)

mutual

/-- Model of `ast::Stmt`. -/
inductive Stmt where
  | Assignment (target : String) (value : Expr)
  | If (condition : Expr) (then_block : Block) (else_block : Option Block)
  | Call (name : String) (args : List Expr)
  | Spawn (gem_type : String) (properties : List Property)
  | ExprStmt (e : Expr)

/-- Model of `ast::Block`. -/
inductive Block where
  | mk (statements : List Stmt)

end

/-! ## Parser state (src/parser.rs)

The Rust parser owns a token vector and a cursor.  Recursive-descent loops
are embedded with an explicit fuel argument that only ever decreases from a
generously sized entry value; running out of fuel yields a dedicated
model-only error that no theorem relies on (every stated parse returns a
real `ok`/`error` before fuel runs out). -/

/-- Model of `parser::ParseError`.  (The Rust messages interpolate the
offending token via `Debug`; the model keeps fixed message texts, which no
claim inspects.) -/
structure ParseError where
  message : String

/-- Parser state: the token vector plus the cursor position. -/
structure ParserState where
  tokens : List Token
  position : Nat

/-- Model of `Parser::current`: the token at the cursor, if any. -/
def ParserState.current (st : ParserState) : Option Token :=
  st.tokens.get? st.position

/-- Model of `Parser::peek`. -/
def ParserState.peek (st : ParserState) (offset : Nat) : Option Token :=
  st.tokens.get? (st.position + offset)

/-- Cursor movement of `Parser::advance`: step forward when in bounds. -/
def ParserState.advanceState (st : ParserState) : ParserState :=
  if st.position < st.tokens.length then { st with position := st.position + 1 } else st

/-- Model of `Parser::advance`: return the token at the cursor (if in
bounds) together with the moved state. -/
def ParserState.advanceGet (st : ParserState) : Option Token × ParserState :=
  (st.tokens.get? st.position, st.advanceState)

/-- The model-only out-of-fuel error. -/
def parseFuelErr {α : Type} : Except ParseError α :=
  .error ⟨"parser fuel exhausted"⟩

/-- Model of `Parser::expect`: consume the expected token or fail. -/
def expectTok (st : ParserState) (expected : Token) : Except ParseError ParserState :=
  if st.current == some expected then .ok st.advanceState
  else .error ⟨"Expected token mismatch"⟩

/-- Model of `Parser::is_uppercase_ident`.  (`char::is_uppercase` is
modelled by its ASCII behaviour `Char.isUpper`; all inputs in scope are
ASCII.) -/
def is_uppercase_ident : Token → Bool
  | Token.Ident name =>
    (match name.data with
     | [] => false
     | c :: _ => c.isUpper)
  | _ => false

/-- Model of `Parser::is_lowercase_ident` (first character lowercase or an
underscore). -/
def is_lowercase_ident : Token → Bool
  | Token.Ident name =>
    (match name.data with
     | [] => false
     | c :: _ => c.isLower || c == '_')
  | _ => false

/-- The doc-comment skipping loop at the start of `parse_gem_decl`.  The
fuel passed by the caller always exceeds the token count, so the loop stops
exactly where the Rust `while` does. -/
def skipDocComments : Nat → ParserState → ParserState
  | 0, st => st
  | fuel + 1, st =>
    match st.current with
    | some (Token.DocComment _) => skipDocComments fuel st.advanceState
    | _ => st

/-! ## Scene grammar (src/parser.rs lines 77-255) -/

mutual

/-- Model of `Parser::parse_gem_decl` (src/parser.rs lines 83-150): skip doc
comments, read the uppercase name, `:`, the type name, then the brace block
of properties and children. -/
def parseGemDecl : Nat → ParserState → Except ParseError (GemDecl × ParserState)
  | 0, _ => parseFuelErr
  | fuel + 1, st =>
    let st := skipDocComments (st.tokens.length + 1) st
    match st.advanceGet with
    | (some (Token.Ident n), st₁) =>
      if is_uppercase_ident (Token.Ident n) then
        match expectTok st₁ Token.Colon with
        | .error e => .error e
        | .ok st₂ =>
          match st₂.advanceGet with
          | (some (Token.Ident t), st₃) =>
            match expectTok st₃ Token.LBrace with
            | .error e => .error e
            | .ok st₄ =>
              match gemBodyLoop fuel st₄ [] [] with
              | .error e => .error e
              | .ok (properties, children, st₅) =>
                match expectTok st₅ Token.RBrace with
                | .error e => .error e
                | .ok st₆ => .ok (⟨n, t, properties, children⟩, st₆)
          | _ => .error ⟨"Expected Gem type"⟩
      else .error ⟨"Expected Gem name (Uppercase identifier)"⟩
    | _ => .error ⟨"Expected Gem name (Uppercase identifier)"⟩

/-- Body loop of `parse_gem_decl`: until the closing brace (or end of
input), dispatch on the leading token — child declaration, property, bare
directive auto-named link, or skipped doc comment. -/
def gemBodyLoop : Nat → ParserState → List Property → List GemDecl →
    Except ParseError (List Property × List GemDecl × ParserState)
  | 0, _, _, _ => parseFuelErr
  | fuel + 1, st, properties, children =>
    match st.current with
    | none => .ok (properties, children, st)
    | some token =>
      if token == Token.RBrace then .ok (properties, children, st)
      else if is_uppercase_ident token then
        match parseGemDecl fuel st with
        | .ok (child, st') => gemBodyLoop fuel st' properties (children ++ [child])
        | .error e => .error e
      else if is_lowercase_ident token then
        match parseProperty fuel st with
        | .ok (prop, st') => gemBodyLoop fuel st' (properties ++ [prop]) children
        | .error e => .error e
      else if token == Token.Hash then
        match parseDirective fuel st with
        | .ok (directive, st') =>
          gemBodyLoop fuel st' (properties ++ [⟨"link", Value.Directive directive⟩]) children
        | .error e => .error e
      else
        match token with
        | Token.DocComment _ => gemBodyLoop fuel st.advanceState properties children
        | _ => .error ⟨"Unexpected token in Gem body"⟩

/-- Model of `Parser::parse_property` (src/parser.rs lines 152-167). -/
def parseProperty : Nat → ParserState → Except ParseError (Property × ParserState)
  | 0, _ => parseFuelErr
  | fuel + 1, st =>
    match st.advanceGet with
    | (some (Token.Ident key), st₁) =>
      match expectTok st₁ Token.Colon with
      | .ok st₂ =>
        match parseValue fuel st₂ with
        | .ok (value, st₃) => .ok (⟨key, value⟩, st₃)
        | .error e => .error e
      | .error e => .error e
    | _ => .error ⟨"Expected property key"⟩

/-- Model of `Parser::parse_value` (src/parser.rs lines 169-229).  Each
literal arm advances past the matched token (the Rust pattern re-matches
the result of `advance`, which is the token `current` just inspected). -/
def parseValue : Nat → ParserState → Except ParseError (Value × ParserState)
  | 0, _ => parseFuelErr
  | fuel + 1, st =>
    match st.current with
    | some (Token.Integer i) => .ok (Value.Integer i, st.advanceState)
    | some (Token.Float f) => .ok (Value.Number f, st.advanceState)
    | some (Token.String s) => .ok (Value.String s, st.advanceState)
    | some (Token.Bool b) => .ok (Value.Bool b, st.advanceState)
    | some Token.LParen =>
      match valueTupleLoop fuel st.advanceState [] with
      | .ok (elements, st₁) =>
        match expectTok st₁ Token.RParen with
        | .ok st₂ => .ok (Value.Tuple elements, st₂)
        | .error e => .error e
      | .error e => .error e
    | some Token.Hash =>
      match parseDirective fuel st with
      | .ok (directive, st₁) => .ok (Value.Directive directive, st₁)
      | .error e => .error e
    | some (Token.Ident id) => .ok (Value.Ident id, st.advanceState)
    | _ => .error ⟨"Expected value"⟩

/-- Element loop of the tuple arm of `parse_value`: elements separated by
commas until the closing parenthesis (or a non-comma). -/
def valueTupleLoop : Nat → ParserState → List Value →
    Except ParseError (List Value × ParserState)
  | 0, _, _ => parseFuelErr
  | fuel + 1, st, elements =>
    match st.current with
    | some Token.RParen => .ok (elements, st)
    | _ =>
      match parseValue fuel st with
      | .ok (v, st₁) =>
        match st₁.current with
        | some Token.Comma => valueTupleLoop fuel st₁.advanceState (elements ++ [v])
        | _ => .ok (elements ++ [v], st₁)
      | .error e => .error e

/-- Model of `Parser::parse_directive` (src/parser.rs lines 231-255):
consume `#`, then colon-separated identifier segments; an empty segment
list is an error. -/
def parseDirective : Nat → ParserState → Except ParseError (List String × ParserState)
  | 0, _ => parseFuelErr
  | fuel + 1, st =>
    match expectTok st Token.Hash with
    | .error e => .error e
    | .ok st₁ =>
      match directiveLoop fuel st₁ [] with
      | .ok (segments, st₂) =>
        if segments.isEmpty then .error ⟨"Empty directive"⟩
        else .ok (segments, st₂)
      | .error e => .error e

/-- Segment loop of `parse_directive`. -/
def directiveLoop : Nat → ParserState → List String →
    Except ParseError (List String × ParserState)
  | 0, _, _ => parseFuelErr
  | fuel + 1, st, segments =>
    match st.current with
    | some (Token.Ident _) =>
      match st.advanceGet with
      | (some (Token.Ident seg), st₁) =>
        match st₁.current with
        | some Token.Colon => directiveLoop fuel st₁.advanceState (segments ++ [seg])
        | _ => .ok (segments ++ [seg], st₁)
      | _ => .ok (segments, st)
    | _ => .ok (segments, st)

end

/-- Model of `Parser::parse_scene` (src/parser.rs lines 77-80): parse one
root declaration and wrap it — the cursor is not checked for leftovers. -/
def parseScene (fuel : Nat) (st : ParserState) : Except ParseError (GemFile × ParserState) :=
  match parseGemDecl fuel st with
  | .ok (root, st₁) => .ok (⟨root⟩, st₁)
  | .error e => .error e

/-! ## Expression grammar (src/parser.rs lines 451-700) -/

mutual

/-- Model of `Parser::parse_expression`: delegates to the loosest level. -/
def parseExpression : Nat → ParserState → Except ParseError (Expr × ParserState)
  | 0, _ => parseFuelErr
  | fuel + 1, st => parseLogicalOr fuel st

/-- Model of `Parser::parse_logical_or`. -/
def parseLogicalOr : Nat → ParserState → Except ParseError (Expr × ParserState)
  | 0, _ => parseFuelErr
  | fuel + 1, st =>
    match parseLogicalAnd fuel st with
    | .ok (left, st₁) => logicalOrLoop fuel left st₁
    | .error e => .error e

/-- While loop of `parse_logical_or`. -/
def logicalOrLoop : Nat → Expr → ParserState → Except ParseError (Expr × ParserState)
  | 0, _, _ => parseFuelErr
  | fuel + 1, left, st =>
    match st.current with
    | some Token.Or =>
      match parseLogicalAnd fuel st.advanceState with
      | .ok (right, st₁) => logicalOrLoop fuel (Expr.BinaryOp BinOp.Or left right) st₁
      | .error e => .error e
    | _ => .ok (left, st)

/-- Model of `Parser::parse_logical_and` (src/parser.rs lines 469-481). -/
def parseLogicalAnd : Nat → ParserState → Except ParseError (Expr × ParserState)
  | 0, _ => parseFuelErr
  | fuel + 1, st =>
    match parseEquality fuel st with
    | .ok (left, st₁) => logicalAndLoop fuel left st₁
    | .error e => .error e

/-- While loop of `parse_logical_and`. -/
def logicalAndLoop : Nat → Expr → ParserState → Except ParseError (Expr × ParserState)
  | 0, _, _ => parseFuelErr
  | fuel + 1, left, st =>
    match st.current with
    | some Token.And =>
      match parseEquality fuel st.advanceState with
      | .ok (right, st₁) => logicalAndLoop fuel (Expr.BinaryOp BinOp.And left right) st₁
      | .error e => .error e
    | _ => .ok (left, st)

/-- Model of `Parser::parse_equality`. -/
def parseEquality : Nat → ParserState → Except ParseError (Expr × ParserState)
  | 0, _ => parseFuelErr
  | fuel + 1, st =>
    match parseComparison fuel st with
    | .ok (left, st₁) => equalityLoop fuel left st₁
    | .error e => .error e

/-- While loop of `parse_equality` (`==` and `!=`). -/
def equalityLoop : Nat → Expr → ParserState → Except ParseError (Expr × ParserState)
  | 0, _, _ => parseFuelErr
  | fuel + 1, left, st =>
    match st.current with
    | some Token.EqEq =>
      match parseComparison fuel st.advanceState with
      | .ok (right, st₁) => equalityLoop fuel (Expr.BinaryOp BinOp.Eq left right) st₁
      | .error e => .error e
    | some Token.NotEq =>
      match parseComparison fuel st.advanceState with
      | .ok (right, st₁) => equalityLoop fuel (Expr.BinaryOp BinOp.NotEq left right) st₁
      | .error e => .error e
    | _ => .ok (left, st)

/-- Model of `Parser::parse_comparison`. -/
def parseComparison : Nat → ParserState → Except ParseError (Expr × ParserState)
  | 0, _ => parseFuelErr
  | fuel + 1, st =>
    match parseAdditive fuel st with
    | .ok (left, st₁) => comparisonLoop fuel left st₁
    | .error e => .error e

/-- While loop of `parse_comparison` (`<`, `>`, `<=`, `>=`). -/
def comparisonLoop : Nat → Expr → ParserState → Except ParseError (Expr × ParserState)
  | 0, _, _ => parseFuelErr
  | fuel + 1, left, st =>
    match st.current with
    | some Token.Less =>
      match parseAdditive fuel st.advanceState with
      | .ok (right, st₁) => comparisonLoop fuel (Expr.BinaryOp BinOp.Less left right) st₁
      | .error e => .error e
    | some Token.Greater =>
      match parseAdditive fuel st.advanceState with
      | .ok (right, st₁) => comparisonLoop fuel (Expr.BinaryOp BinOp.Greater left right) st₁
      | .error e => .error e
    | some Token.LessEq =>
      match parseAdditive fuel st.advanceState with
      | .ok (right, st₁) => comparisonLoop fuel (Expr.BinaryOp BinOp.LessEq left right) st₁
      | .error e => .error e
    | some Token.GreaterEq =>
      match parseAdditive fuel st.advanceState with
      | .ok (right, st₁) => comparisonLoop fuel (Expr.BinaryOp BinOp.GreaterEq left right) st₁
      | .error e => .error e
    | _ => .ok (left, st)

/-- Model of `Parser::parse_additive` (src/parser.rs lines 523-540). -/
def parseAdditive : Nat → ParserState → Except ParseError (Expr × ParserState)
  | 0, _ => parseFuelErr
  | fuel + 1, st =>
    match parseMultiplicative fuel st with
    | .ok (left, st₁) => additiveLoop fuel left st₁
    | .error e => .error e

/-- While loop of `parse_additive` (`+` and `-`). -/
def additiveLoop : Nat → Expr → ParserState → Except ParseError (Expr × ParserState)
  | 0, _, _ => parseFuelErr
  | fuel + 1, left, st =>
    match st.current with
    | some Token.Plus =>
      match parseMultiplicative fuel st.advanceState with
      | .ok (right, st₁) => additiveLoop fuel (Expr.BinaryOp BinOp.Add left right) st₁
      | .error e => .error e
    | some Token.Minus =>
      match parseMultiplicative fuel st.advanceState with
      | .ok (right, st₁) => additiveLoop fuel (Expr.BinaryOp BinOp.Sub left right) st₁
      | .error e => .error e
    | _ => .ok (left, st)

/-- Model of `Parser::parse_multiplicative`. -/
def parseMultiplicative : Nat → ParserState → Except ParseError (Expr × ParserState)
  | 0, _ => parseFuelErr
  | fuel + 1, st =>
    match parseUnary fuel st with
    | .ok (left, st₁) => multiplicativeLoop fuel left st₁
    | .error e => .error e

/-- While loop of `parse_multiplicative` (`*` and `/`). -/
def multiplicativeLoop : Nat → Expr → ParserState → Except ParseError (Expr × ParserState)
  | 0, _, _ => parseFuelErr
  | fuel + 1, left, st =>
    match st.current with
    | some Token.Multiply =>
      match parseUnary fuel st.advanceState with
      | .ok (right, st₁) => multiplicativeLoop fuel (Expr.BinaryOp BinOp.Mul left right) st₁
      | .error e => .error e
    | some Token.Divide =>
      match parseUnary fuel st.advanceState with
      | .ok (right, st₁) => multiplicativeLoop fuel (Expr.BinaryOp BinOp.Div left right) st₁
      | .error e => .error e
    | _ => .ok (left, st)

/-- Model of `Parser::parse_unary` (`!` and unary `-`). -/
def parseUnary : Nat → ParserState → Except ParseError (Expr × ParserState)
  | 0, _ => parseFuelErr
  | fuel + 1, st =>
    match st.current with
    | some Token.Not =>
      match parseUnary fuel st.advanceState with
      | .ok (expr, st₁) => .ok (Expr.UnaryOp UnOp.Not expr, st₁)
      | .error e => .error e
    | some Token.Minus =>
      match parseUnary fuel st.advanceState with
      | .ok (expr, st₁) => .ok (Expr.UnaryOp UnOp.Minus expr, st₁)
      | .error e => .error e
    | _ => parsePrimary fuel st

/-- Model of `Parser::parse_primary` (src/parser.rs lines 583-645). -/
def parsePrimary : Nat → ParserState → Except ParseError (Expr × ParserState)
  | 0, _ => parseFuelErr
  | fuel + 1, st =>
    match st.current with
    | some (Token.Integer i) => .ok (Expr.Integer i, st.advanceState)
    | some (Token.Float f) => .ok (Expr.Number f, st.advanceState)
    | some (Token.String s) => .ok (Expr.String s, st.advanceState)
    | some (Token.Bool b) => .ok (Expr.Bool b, st.advanceState)
    | some Token.LParen =>
      match exprTupleLoop fuel st.advanceState [] with
      | .ok (elements, st₁) =>
        match expectTok st₁ Token.RParen with
        | .ok st₂ => .ok (Expr.Tuple elements, st₂)
        | .error e => .error e
      | .error e => .error e
    | some Token.Hash =>
      match parseDirective fuel st with
      | .ok (directive, st₁) => .ok (Expr.Directive directive, st₁)
      | .error e => .error e
    | some (Token.Ident name) => parseCallOrProperty fuel name st.advanceState
    | _ => .error ⟨"Unexpected token in expression"⟩

/-- Element loop of the parenthesized-tuple arm of `parse_primary`. -/
def exprTupleLoop : Nat → ParserState → List Expr →
    Except ParseError (List Expr × ParserState)
  | 0, _, _ => parseFuelErr
  | fuel + 1, st, elements =>
    match st.current with
    | some Token.RParen => .ok (elements, st)
    | _ =>
      match parseExpression fuel st with
      | .ok (e, st₁) =>
        match st₁.current with
        | some Token.Comma => exprTupleLoop fuel st₁.advanceState (elements ++ [e])
        | _ => .ok (elements ++ [e], st₁)
      | .error e => .error e

/-- Model of `Parser::parse_call_or_property` (src/parser.rs lines 647-700):
after an identifier, `(` starts a call, `.` starts a left-associative
property-access chain, anything else leaves a bare identifier. -/
def parseCallOrProperty : Nat → String → ParserState →
    Except ParseError (Expr × ParserState)
  | 0, _, _ => parseFuelErr
  | fuel + 1, name, st =>
    match st.current with
    | some Token.LParen =>
      match callArgsLoop fuel st.advanceState [] with
      | .ok (args, st₁) =>
        match expectTok st₁ Token.RParen with
        | .ok st₂ => .ok (Expr.Call name args, st₂)
        | .error e => .error e
      | .error e => .error e
    | some Token.Dot =>
      match st.advanceState.advanceGet with
      | (some (Token.Ident property), st₁) =>
        propertyChainLoop fuel (Expr.PropertyAccess (Expr.Ident name) property) st₁
      | _ => .error ⟨"Expected property name after dot"⟩
    | _ => .ok (Expr.Ident name, st)

/-- Argument loop of the call arm of `parse_call_or_property`. -/
def callArgsLoop : Nat → ParserState → List Expr →
    Except ParseError (List Expr × ParserState)
  | 0, _, _ => parseFuelErr
  | fuel + 1, st, args =>
    match st.current with
    | some Token.RParen => .ok (args, st)
    | _ =>
      match parseExpression fuel st with
      | .ok (a, st₁) =>
        match st₁.current with
        | some Token.Comma => callArgsLoop fuel st₁.advanceState (args ++ [a])
        | _ => .ok (args ++ [a], st₁)
      | .error e => .error e

/-- Chained `.name` accesses of `parse_call_or_property`, left-associative. -/
def propertyChainLoop : Nat → Expr → ParserState →
    Except ParseError (Expr × ParserState)
  | 0, _, _ => parseFuelErr
  | fuel + 1, expr, st =>
    match st.current with
    | some Token.Dot =>
      match st.advanceState.advanceGet with
      | (some (Token.Ident prop), st₁) =>
        propertyChainLoop fuel (Expr.PropertyAccess expr prop) st₁
      | _ => .error ⟨"Expected property name after dot"⟩
    | _ => .ok (expr, st)

end

/-! ## Statement grammar (src/parser.rs lines 399-449) -/

/-- Property loop of `Parser::parse_spawn`. -/
def spawnPropsLoop : Nat → ParserState → List Property →
    Except ParseError (List Property × ParserState)
  | 0, _, _ => parseFuelErr
  | fuel + 1, st, properties =>
    match st.current with
    | none => .ok (properties, st)
    | some token =>
      if token == Token.RBrace then .ok (properties, st)
      else
        match parseProperty fuel st with
        | .ok (prop, st₁) => spawnPropsLoop fuel st₁ (properties ++ [prop])
        | .error e => .error e

/-- Model of `Parser::parse_spawn` (src/parser.rs lines 425-449), entered
after the `spawn` keyword has been consumed. -/
def parseSpawn : Nat → ParserState → Except ParseError (Stmt × ParserState)
  | 0, _ => parseFuelErr
  | fuel + 1, st =>
    match st.advanceGet with
    | (some (Token.Ident gem_type), st₁) =>
      match expectTok st₁ Token.LBrace with
      | .ok st₂ =>
        match spawnPropsLoop fuel st₂ [] with
        | .ok (properties, st₃) =>
          match expectTok st₃ Token.RBrace with
          | .ok st₄ => .ok (Stmt.Spawn gem_type properties, st₄)
          | .error e => .error e
        | .error e => .error e
      | .error e => .error e
    | _ => .error ⟨"Expected Gem type after spawn"⟩

/-- Model of `Parser::parse_statement` (src/parser.rs lines 399-423): an
identifier followed by `=` is an assignment; an identifier not followed by
`=` goes through `parse_call_or_property` only; `spawn` starts a spawn
statement; anything else is a full expression statement. -/
def parseStatement (fuel : Nat) (st : ParserState) : Except ParseError (Stmt × ParserState) :=
  match st.current with
  | some (Token.Ident name) =>
    match st.advanceState.current with
    | some Token.Eq =>
      match parseExpression fuel st.advanceState.advanceState with
      | .ok (value, st₁) => .ok (Stmt.Assignment name value, st₁)
      | .error e => .error e
    | _ =>
      match parseCallOrProperty fuel name st.advanceState with
      | .ok (expr, st₁) => .ok (Stmt.ExprStmt expr, st₁)
      | .error e => .error e
  | some Token.Spawn => parseSpawn fuel st.advanceState
  | _ =>
    match parseExpression fuel st with
    | .ok (e, st₁) => .ok (Stmt.ExprStmt e, st₁)
    | .error e => .error e

/-! ## Entry points with generous fuel -/

/-- Run `parse_scene` on a fresh parser over the given tokens. -/
def runParseScene (tokens : List Token) : Except ParseError (GemFile × ParserState) :=
  parseScene (16 * tokens.length + 16) ⟨tokens, 0⟩

/-- Run `parse_expression` on a fresh parser over the given tokens. -/
def runParseExpression (tokens : List Token) : Except ParseError (Expr × ParserState) :=
  parseExpression (16 * tokens.length + 16) ⟨tokens, 0⟩

/-- Run `parse_statement` on a fresh parser over the given tokens. -/
def runParseStatement (tokens : List Token) : Except ParseError (Stmt × ParserState) :=
  parseStatement (16 * tokens.length + 16) ⟨tokens, 0⟩

end Gem

/-! ## Theorems for claims C1 and C8 -/

open Gem

/-- C1: `PropertyType::infer` is a total function — every input string is
mapped to exactly one `PropertyType` — and on the documented literal forms it
returns the documented classification: `(1,2)` is `Vec2`, `(1,2,3,4)` is
`Color`, `#a:b` is `SceneRef`, `3.14` is `Float`, `42` is `Int`, `true` is
`Bool`, and a quoted `x` is `String`. -/
theorem infer_total_and_documented_forms :
    (∀ s : String, ∃! t : PropertyType, Gem.infer s = t) ∧
    Gem.infer "(1,2)" = PropertyType.Vec2 ∧
    Gem.infer "(1,2,3,4)" = PropertyType.Color ∧
    Gem.infer "#a:b" = PropertyType.SceneRef ∧
    Gem.infer "3.14" = PropertyType.Float ∧
    Gem.infer "42" = PropertyType.Int ∧
    Gem.infer "true" = PropertyType.Bool ∧
    Gem.infer "\"x\"" = PropertyType.String := by
  refine ⟨fun s => ⟨Gem.infer s, rfl, fun t ht => ht.symm⟩, ?_, ?_, ?_, ?_, ?_, ?_, ?_⟩
  all_goals decide

/-- C8 counterexample: the literal whose text is `"(1, 2)"` including the
outer double quotes is classified `String`, not `Vec2` — the tuple check
looks at the first character, which is the quote, so outer quotes win. -/
theorem infer_outer_quoted_tuple_is_string :
    Gem.infer "\"(1, 2)\"" = PropertyType.String ∧
    Gem.infer "\"(1, 2)\"" ≠ PropertyType.Vec2 := by
  constructor <;> decide

/-- C8 amended: the tuple check precedes the quote check, so a tuple form
whose components carry double quotes inside, such as `("a", "b")`, is
classified by its outer parenthesization arity (`Vec2`) rather than as
`String`; a literal wrapped in outer double quotes, such as the text
`"(1, 2)"` with the quotes, does not start with `(` and is classified
`String`. -/
theorem infer_tuple_before_quote_check :
    Gem.infer "(\"a\", \"b\")" = PropertyType.Vec2 ∧
    Gem.infer "\"(1, 2)\"" = PropertyType.String := by
  constructor <;> decide

/-! ## Association-list lemmas -/

theorem lookupA_mem {κ β : Type} [DecidableEq κ] {k : κ} {v : β} :
    ∀ {l : List (κ × β)}, lookupA k l = some v → (k, v) ∈ l := by
  intro l
  induction l with
  | nil => intro h; simp [lookupA] at h
  | cons p rest ih =>
    obtain ⟨k', v'⟩ := p
    intro h
    by_cases hk : k' = k
    · subst hk
      simp [lookupA] at h
      simp [h]
    · simp [lookupA, hk] at h
      exact List.mem_cons_of_mem _ (ih h)

theorem lookupA_eq_none_iff {κ β : Type} [DecidableEq κ] {k : κ} :
    ∀ {l : List (κ × β)}, lookupA k l = none ↔ k ∉ l.map Prod.fst := by
  intro l
  induction l with
  | nil => simp [lookupA]
  | cons p rest ih =>
    obtain ⟨k', v'⟩ := p
    by_cases hk : k' = k
    · subst hk; simp [lookupA]
    · simp [lookupA, hk, ih, Ne.symm hk]

theorem lookupA_isSome_of_mem_keys {κ β : Type} [DecidableEq κ] {k : κ}
    {l : List (κ × β)} (h : k ∈ l.map Prod.fst) : ∃ v, lookupA k l = some v := by
  rcases hv : lookupA k l with _ | v
  · exact absurd h (lookupA_eq_none_iff.mp hv)
  · exact ⟨v, rfl⟩

theorem mem_lookupA_of_nodup {κ β : Type} [DecidableEq κ] {k : κ} {v : β} :
    ∀ {l : List (κ × β)}, (l.map Prod.fst).Nodup → (k, v) ∈ l →
      lookupA k l = some v := by
  intro l
  induction l with
  | nil => intro _ h; simp at h
  | cons p rest ih =>
    obtain ⟨k', v'⟩ := p
    intro hnd hmem
    simp only [List.map_cons, List.nodup_cons] at hnd
    rcases List.mem_cons.mp hmem with heq | hrest
    · simp only [Prod.mk.injEq] at heq
      obtain ⟨hk, hv⟩ := heq
      subst hk; subst hv
      simp [lookupA]
    · have hk : k' ≠ k := by
        intro hkk
        subst hkk
        exact hnd.1 (List.mem_map_of_mem Prod.fst hrest)
      simp only [lookupA, hk, if_false]
      exact ih hnd.2 hrest

theorem insertA_fresh {κ β : Type} [DecidableEq κ] {k : κ} (v : β) :
    ∀ {l : List (κ × β)}, k ∉ l.map Prod.fst → insertA k v l = l ++ [(k, v)] := by
  intro l
  induction l with
  | nil => intro _; rfl
  | cons p rest ih =>
    obtain ⟨k', v'⟩ := p
    intro h
    simp only [List.map_cons, List.mem_cons] at h
    push_neg at h
    simp [insertA, Ne.symm h.1, ih h.2]

theorem lookupA_append_single {κ β : Type} [DecidableEq κ] (j k : κ) (v : β) :
    ∀ (l : List (κ × β)), k ∉ l.map Prod.fst →
      lookupA j (l ++ [(k, v)]) = if j = k then some v else lookupA j l := by
  intro l
  induction l with
  | nil =>
    intro _
    by_cases hj : j = k
    · subst hj; simp [lookupA]
    · simp [lookupA, Ne.symm hj, hj]
  | cons p rest ih =>
    obtain ⟨k', v'⟩ := p
    intro h
    simp only [List.map_cons, List.mem_cons] at h
    push_neg at h
    by_cases hk' : k' = j
    · have hne : ¬ j = k := by
        intro hh
        exact h.1 (hh ▸ hk').symm
      simp [lookupA, hk', hne]
    · simp [lookupA, hk', ih h.2]

theorem keys_modifyA {κ β : Type} [DecidableEq κ] (k : κ) (f : β → β) :
    ∀ (l : List (κ × β)), (modifyA k f l).map Prod.fst = l.map Prod.fst := by
  intro l
  induction l with
  | nil => rfl
  | cons p rest ih =>
    obtain ⟨k', v'⟩ := p
    by_cases hk : k' = k <;> simp [modifyA, hk, ih]

theorem lookupA_modifyA {κ β : Type} [DecidableEq κ] (j k : κ) (f : β → β) :
    ∀ (l : List (κ × β)),
      lookupA j (modifyA k f l) =
        if j = k then (lookupA k l).map f else lookupA j l := by
  intro l
  induction l with
  | nil => by_cases hj : j = k <;> simp [lookupA, modifyA, hj]
  | cons p rest ih =>
    obtain ⟨k', v'⟩ := p
    by_cases hk : k' = k
    · subst hk
      by_cases hj : j = k'
      · subst hj; simp [lookupA, modifyA]
      · simp [lookupA, modifyA, hj, Ne.symm hj]
    · by_cases hj : k' = j
      · have hne : ¬ j = k := by
          intro hh
          exact hk (hj.trans hh)
        simp [lookupA, modifyA, hk, hj, hne]
      · simp [lookupA, modifyA, hk, hj, ih]

/-! ## Lemmas about the `SceneIR` operations -/

theorem inv_fresh_key {s : SceneIR} (h : Inv s) : s.next_id ∉ s.nodes.map Prod.fst := by
  rw [h.keys]
  simp [List.mem_range]

theorem inv_lookup_lt {s : SceneIR} (h : Inv s) {k : Nat} {n : NodeIR}
    (hl : lookupA k s.nodes = some n) : k < s.next_id := by
  have hmem : k ∈ s.nodes.map Prod.fst := by
    by_contra hmem
    rw [← lookupA_eq_none_iff] at hmem
    rw [hmem] at hl
    cases hl
  rw [h.keys] at hmem
  exact List.mem_range.mp hmem

theorem inv_child_ne_fresh {s : SceneIR} (h : Inv s) {k : Nat} {n : NodeIR}
    (hl : lookupA k s.nodes = some n) : s.next_id ∉ n.children := by
  intro hc
  obtain ⟨m, hm, _⟩ := h.coh k n hl s.next_id hc
  exact absurd (inv_lookup_lt h hm) (lt_irrefl _)

theorem add_node_nodes (s : SceneIR) (name cn : String) (h : Inv s) :
    (s.add_node name cn).1.nodes =
      s.nodes ++ [(s.next_id, NodeIR.new s.next_id name cn)] := by
  simp only [SceneIR.add_node]
  exact insertA_fresh _ (inv_fresh_key h)

theorem add_node_lookup (s : SceneIR) (name cn : String) (h : Inv s) (j : Nat) :
    lookupA j (s.add_node name cn).1.nodes =
      if j = s.next_id then some (NodeIR.new s.next_id name cn)
      else lookupA j s.nodes := by
  rw [add_node_nodes s name cn h]
  exact lookupA_append_single j _ _ _ (inv_fresh_key h)

theorem add_node_inv (s : SceneIR) (name cn : String) (h : Inv s) :
    Inv (s.add_node name cn).1 := by
  refine ⟨?_, ?_, ?_⟩
  · rw [add_node_nodes s name cn h]
    simp only [List.map_append, List.map_cons, List.map_nil, h.keys,
      SceneIR.add_node]
    exact (List.range_succ s.next_id).symm
  · intro k n hl
    rw [add_node_lookup s name cn h] at hl
    by_cases hk : k = s.next_id
    · rw [hk]
      simp [hk] at hl
      rw [← hl]
      rfl
    · simp [hk] at hl
      exact h.ids k n hl
  · intro k n hl c hc
    rw [add_node_lookup s name cn h] at hl
    by_cases hk : k = s.next_id
    · simp [hk] at hl
      rw [← hl] at hc
      simp [NodeIR.new] at hc
    · simp [hk] at hl
      obtain ⟨m, hm, hpar⟩ := h.coh k n hl c hc
      refine ⟨m, ?_, hpar⟩
      rw [add_node_lookup s name cn h]
      have hcne : c ≠ s.next_id := fun hh => by
        rw [hh] at hm
        exact absurd (inv_lookup_lt h hm) (lt_irrefl _)
      simp [hcne, hm]

theorem add_node_orphan (s : SceneIR) (name cn : String) (h : Inv s) (k : Nat) :
    orphanAt (s.add_node name cn).1 k ↔ (orphanAt s k ∨ k = s.next_id) := by
  unfold orphanAt
  rw [show (∀ {j}, lookupA j (s.add_node name cn).1.nodes =
      if j = s.next_id then some (NodeIR.new s.next_id name cn)
      else lookupA j s.nodes) from fun {j} => add_node_lookup s name cn h j]
  by_cases hk : k = s.next_id
  · simp [hk, NodeIR.new]
  · simp [hk]

theorem add_node_child_fresh (s : SceneIR) (name cn : String) (h : Inv s) :
    ∀ k n, lookupA k (s.add_node name cn).1.nodes = some n →
      s.next_id ∉ n.children := by
  intro k n hl
  rw [add_node_lookup s name cn h] at hl
  by_cases hk : k = s.next_id
  · simp [hk] at hl
    rw [← hl]
    simp [NodeIR.new]
  · simp [hk] at hl
    exact inv_child_ne_fresh h hl

theorem add_child_lookup (s : SceneIR) (pid cid : Nat) {np n0 : NodeIR}
    (hpid : lookupA pid s.nodes = some np)
    (hcid : lookupA cid s.nodes = some n0)
    (hne : pid ≠ cid) (j : Nat) :
    lookupA j (s.add_child pid cid).nodes =
      if j = cid then some { n0 with parent := some pid }
      else if j = pid then some { np with children := np.children ++ [cid] }
      else lookupA j s.nodes := by
  simp only [SceneIR.add_child, lookupA_modifyA]
  by_cases hj : j = cid
  · have hcp : ¬ cid = pid := fun hh => hne hh.symm
    simp [hj, hcp, hcid]
  · by_cases hjp : j = pid
    · simp [hj, hjp, hpid, hne]
    · simp [hj, hjp]

theorem add_child_keys (s : SceneIR) (pid cid : Nat) :
    (s.add_child pid cid).nodes.map Prod.fst = s.nodes.map Prod.fst := by
  simp only [SceneIR.add_child, keys_modifyA]

theorem add_child_inv (s : SceneIR) (pid cid : Nat) (h : Inv s) {np n0 : NodeIR}
    (hpid : lookupA pid s.nodes = some np)
    (hcid : lookupA cid s.nodes = some n0)
    (hfresh : ∀ k n, lookupA k s.nodes = some n → cid ∉ n.children)
    (hne : pid ≠ cid) :
    Inv (s.add_child pid cid) := by
  have hlook := add_child_lookup s pid cid hpid hcid hne
  refine ⟨?_, ?_, ?_⟩
  · rw [add_child_keys]
    exact h.keys
  · intro k n hl
    rw [hlook k] at hl
    by_cases hk : k = cid
    · simp [hk] at hl
      rw [← hl]
      exact hk ▸ h.ids cid n0 hcid
    · by_cases hkp : k = pid
      · simp [hk, hkp, hne] at hl
        rw [← hl]
        exact hkp ▸ h.ids pid np hpid
      · simp [hk, hkp] at hl
        exact h.ids k n hl
  · intro k n hl c hc
    rw [hlook k] at hl
    -- a helper: move an old coherence witness across the update
    have htrans : ∀ (k₀ : Nat) (m : NodeIR), lookupA c s.nodes = some m →
        m.parent = some k₀ → c ≠ cid →
        ∃ m', lookupA c (s.add_child pid cid).nodes = some m' ∧ m'.parent = some k₀ := by
      intro k₀ m hm hmp hcc
      rw [hlook c]
      by_cases hcp : c = pid
      · have hmn : m = np := by
          rw [hcp] at hm
          rw [hm] at hpid
          exact Option.some.inj hpid
        refine ⟨{ np with children := np.children ++ [cid] }, by simp [hcc, hcp, hne], ?_⟩
        simp [← hmn, hmp]
      · exact ⟨m, by simp [hcc, hcp, hm], hmp⟩
    by_cases hk : k = cid
    · simp [hk] at hl
      rw [← hl] at hc
      simp only at hc
      obtain ⟨m, hm, hmp⟩ := h.coh cid n0 hcid c hc
      have hcc : c ≠ cid := fun hh => hfresh cid n0 hcid (hh ▸ hc)
      obtain ⟨m', hm', hmp'⟩ := htrans cid m hm hmp hcc
      exact ⟨m', hm', by rw [hmp', hk]⟩
    · by_cases hkp : k = pid
      · simp [hk, hkp, hne] at hl
        rw [← hl] at hc
        simp only at hc
        rcases List.mem_append.mp hc with hcold | hcnew
        · obtain ⟨m, hm, hmp⟩ := h.coh pid np hpid c hcold
          have hcc : c ≠ cid := fun hh => hfresh pid np hpid (hh ▸ hcold)
          obtain ⟨m', hm', hmp'⟩ := htrans pid m hm hmp hcc
          exact ⟨m', hm', by rw [hmp', hkp]⟩
        · have hcc : c = cid := by simpa using hcnew
          refine ⟨{ n0 with parent := some pid }, ?_, by simp [hkp]⟩
          rw [hlook c]
          simp [hcc]
      · simp [hk, hkp] at hl
        obtain ⟨m, hm, hmp⟩ := h.coh k n hl c hc
        have hcc : c ≠ cid := fun hh => hfresh k n hl (hh ▸ hc)
        exact htrans k m hm hmp hcc

theorem add_child_orphan (s : SceneIR) (pid cid : Nat) {np n0 : NodeIR}
    (hpid : lookupA pid s.nodes = some np)
    (hcid : lookupA cid s.nodes = some n0)
    (hne : pid ≠ cid) (k : Nat) :
    orphanAt (s.add_child pid cid) k ↔ (orphanAt s k ∧ k ≠ cid) := by
  have hlook := add_child_lookup s pid cid hpid hcid hne
  unfold orphanAt
  by_cases hk : k = cid
  · rw [hk]
    constructor
    · rintro ⟨n, hl, hp⟩
      rw [hlook cid] at hl
      simp at hl
      rw [← hl] at hp
      simp at hp
    · rintro ⟨_, hcc⟩
      exact absurd rfl hcc
  · by_cases hkp : k = pid
    · rw [hkp]
      constructor
      · rintro ⟨n, hl, hp⟩
        rw [hlook pid] at hl
        simp [Ne.symm hne, hne] at hl
        rw [← hl] at hp
        simp only at hp
        exact ⟨⟨np, hpid, hp⟩, hne⟩
      · rintro ⟨⟨n, hl, hp⟩, _⟩
        have hnp : n = np := by
          rw [hl] at hpid
          exact Option.some.inj hpid
        refine ⟨{ np with children := np.children ++ [cid] }, ?_, by simp [← hnp, hp]⟩
        rw [hlook pid]
        simp [Ne.symm hne, hne]
    · constructor
      · rintro ⟨n, hl, hp⟩
        rw [hlook k] at hl
        simp [hk, hkp] at hl
        exact ⟨⟨n, hl, hp⟩, hk⟩
      · rintro ⟨⟨n, hl, hp⟩, _⟩
        refine ⟨n, ?_, hp⟩
        rw [hlook k]
        simp [hk, hkp, hl]

/-! ## ShapeEq: property updates do not change the tree structure -/

theorem shapeEq_refl (s : SceneIR) : ShapeEq s s := by
  refine ⟨rfl, rfl, rfl, fun j => ?_⟩
  cases lookupA j s.nodes <;> simp

theorem shapeEq_trans {s₁ s₂ s₃ : SceneIR} (h₁ : ShapeEq s₁ s₂) (h₂ : ShapeEq s₂ s₃) :
    ShapeEq s₁ s₃ := by
  obtain ⟨hn₁, hr₁, hk₁, hl₁⟩ := h₁
  obtain ⟨hn₂, hr₂, hk₂, hl₂⟩ := h₂
  refine ⟨hn₂.trans hn₁, hr₂.trans hr₁, hk₂.trans hk₁, fun j => ?_⟩
  have g₁ := hl₁ j
  have g₂ := hl₂ j
  rcases e₁ : lookupA j s₁.nodes with _ | n₁ <;>
    rcases e₂ : lookupA j s₂.nodes with _ | n₂ <;>
      rcases e₃ : lookupA j s₃.nodes with _ | n₃ <;>
        rw [e₁, e₂] at g₁ <;> rw [e₂, e₃] at g₂ <;> simp_all

theorem set_typed_property_shape (s : SceneIR) (nid : Nat) (k v : String)
    (t : PropertyType) : ShapeEq s (s.set_typed_property nid k v t) := by
  refine ⟨rfl, rfl, ?_, fun j => ?_⟩
  · exact keys_modifyA _ _ _
  · show match lookupA j s.nodes,
        lookupA j (modifyA nid _ s.nodes) with
      | some n, some n' => n'.id = n.id ∧ n'.parent = n.parent ∧ n'.children = n.children
      | none, none => True
      | _, _ => False
    rw [lookupA_modifyA]
    by_cases hj : j = nid
    · rcases e : lookupA nid s.nodes with _ | n
      · simp [hj, e]
      · simp [hj, e]
    · rcases e : lookupA j s.nodes with _ | n
      · simp [hj, e]
      · simp [hj, e]

theorem addProps_shape (nid : Nat) :
    ∀ (props : List Property) (s : SceneIR), ShapeEq s (addProps nid props s) := by
  intro props
  induction props with
  | nil => intro s; exact shapeEq_refl s
  | cons p rest ih =>
    intro s
    have hstep : addProps nid (p :: rest) s =
        addProps nid rest
          (s.set_typed_property nid p.key (valueToString p.value)
            (Gem.infer (valueToString p.value))) := rfl
    rw [hstep]
    exact shapeEq_trans (set_typed_property_shape s nid _ _ _) (ih _)

theorem shapeEq_lookup {s s' : SceneIR} (h : ShapeEq s s') {j : Nat} :
    (lookupA j s.nodes = none → lookupA j s'.nodes = none) ∧
    (∀ n, lookupA j s.nodes = some n →
      ∃ n', lookupA j s'.nodes = some n' ∧ n'.id = n.id ∧ n'.parent = n.parent ∧
        n'.children = n.children) := by
  have g := h.2.2.2 j
  rcases e : lookupA j s.nodes with _ | n <;>
    rcases e' : lookupA j s'.nodes with _ | n' <;> rw [e, e'] at g <;> simp_all

theorem shapeEq_inv {s s' : SceneIR} (h : ShapeEq s s') (hi : Inv s) : Inv s' := by
  refine ⟨?_, ?_, ?_⟩
  · rw [h.2.2.1, hi.keys, h.1]
  · intro k n' hl'
    rcases e : lookupA k s.nodes with _ | n
    · exact absurd hl' (by rw [(shapeEq_lookup h).1 e]; simp)
    · obtain ⟨n'', hn'', hid, _, _⟩ := (shapeEq_lookup h).2 n e
      rw [hl'] at hn''
      cases hn''
      rw [hid]
      exact hi.ids k n e
  · intro k n' hl' c hc
    rcases e : lookupA k s.nodes with _ | n
    · exact absurd hl' (by rw [(shapeEq_lookup h).1 e]; simp)
    · obtain ⟨n'', hn'', _, _, hch⟩ := (shapeEq_lookup h).2 n e
      rw [hl'] at hn''
      cases hn''
      rw [hch] at hc
      obtain ⟨m, hm, hpar⟩ := hi.coh k n e c hc
      obtain ⟨m', hm', _, hmp, _⟩ := (shapeEq_lookup h).2 m hm
      exact ⟨m', hm', hmp.trans hpar⟩

theorem shapeEq_orphan {s s' : SceneIR} (h : ShapeEq s s') (k : Nat) :
    orphanAt s' k ↔ orphanAt s k := by
  unfold orphanAt
  constructor
  · rintro ⟨n', hl', hp'⟩
    rcases e : lookupA k s.nodes with _ | n
    · exact absurd hl' (by rw [(shapeEq_lookup h).1 e]; simp)
    · obtain ⟨n'', hn'', _, hpar, _⟩ := (shapeEq_lookup h).2 n e
      have hinj : n' = n'' := by
        rw [hl'] at hn''
        exact Option.some.inj hn''
      subst hinj
      exact ⟨n, rfl, by rw [← hpar]; exact hp'⟩
  · rintro ⟨n, hl, hp⟩
    obtain ⟨n', hn', _, hpar, _⟩ := (shapeEq_lookup h).2 n hl
    exact ⟨n', hn', hpar.trans hp⟩

theorem shapeEq_child_fresh {s s' : SceneIR} (h : ShapeEq s s') {x : Nat}
    (hf : ∀ k n, lookupA k s.nodes = some n → x ∉ n.children) :
    ∀ k n', lookupA k s'.nodes = some n' → x ∉ n'.children := by
  intro k n' hl'
  rcases e : lookupA k s.nodes with _ | n
  · exact absurd hl' (by rw [(shapeEq_lookup h).1 e]; simp)
  · obtain ⟨n'', hn'', _, _, hch⟩ := (shapeEq_lookup h).2 n e
    rw [hl'] at hn''
    cases hn''
    rw [hch]
    exact hf k n e

/-! ## The transformer establishes the IR invariants

Mutual structural induction over a declaration and its list of children,
mirroring `transform_gem_decl` and its child loop. -/

mutual

theorem transformGemDecl_spec : ∀ (decl : GemDecl) (parent : Option Nat) (s : SceneIR),
    Inv s → (∀ pid, parent = some pid → pid < s.next_id) →
    ∃ s', transformGemDecl decl parent s = Except.ok (s', s.next_id) ∧
      Inv s' ∧
      s'.next_id = s.next_id + countGemDecls decl ∧
      s'.root = (if s.root.isNone then some s.next_id else s.root) ∧
      (∀ k, orphanAt s' k ↔ (orphanAt s k ∨ (parent = none ∧ k = s.next_id)))
  | GemDecl.mk name gem_type properties children, parent, s, hInv, hpar => by
    have hnid : (s.add_node name gem_type).2 = s.next_id := rfl
    have hInv₁ : Inv (s.add_node name gem_type).1 := add_node_inv s name gem_type hInv
    have hnext₁ : (s.add_node name gem_type).1.next_id = s.next_id + 1 := rfl
    have hroot₁ : (s.add_node name gem_type).1.root =
        (if s.root.isNone then some s.next_id else s.root) := rfl
    have horph₁ := add_node_orphan s name gem_type hInv
    have hfresh₁ := add_node_child_fresh s name gem_type hInv
    have hlooknew : lookupA s.next_id (s.add_node name gem_type).1.nodes =
        some (NodeIR.new s.next_id name gem_type) := by
      rw [add_node_lookup s name gem_type hInv]
      simp
    have hshape := addProps_shape s.next_id properties (s.add_node name gem_type).1
    have hInv₂ := shapeEq_inv hshape hInv₁
    have hnext₂ : (addProps s.next_id properties (s.add_node name gem_type).1).next_id =
        s.next_id + 1 := hshape.1.trans hnext₁
    have hroot₂ : (addProps s.next_id properties (s.add_node name gem_type).1).root =
        (if s.root.isNone then some s.next_id else s.root) := hshape.2.1.trans hroot₁
    have horph₂ := shapeEq_orphan hshape
    have hfresh₂ := shapeEq_child_fresh hshape hfresh₁
    obtain ⟨n₂, hn₂, _, hn₂par, _⟩ := (shapeEq_lookup hshape).2 _ hlooknew
    rw [show (NodeIR.new s.next_id name gem_type).parent = none from rfl] at hn₂par
    match parent with
    | none =>
      have hcomp : transformGemDecl (GemDecl.mk name gem_type properties children) none s =
          (match transformChildren children s.next_id
              (addProps s.next_id properties (s.add_node name gem_type).1) with
            | .ok s4 => .ok (s4, s.next_id)
            | .error e => .error e) := rfl
      obtain ⟨s₄, he₄, hInv₄, hn₄, hr₄, ho₄⟩ :=
        transformChildren_spec children s.next_id
          (addProps s.next_id properties (s.add_node name gem_type).1)
          hInv₂ (by rw [hnext₂]; omega)
          (by rw [hroot₂]; rcases s.root with _ | r <;> simp)
      refine ⟨s₄, by rw [hcomp, he₄], hInv₄, ?_, ?_, ?_⟩
      · rw [hn₄, hnext₂]
        show _ = s.next_id + countGemDecls (GemDecl.mk name gem_type properties children)
        rw [show countGemDecls (GemDecl.mk name gem_type properties children) =
          1 + countGemDeclList children from rfl]
        omega
      · rw [hr₄, hroot₂]
      · intro k
        rw [ho₄ k, horph₂ k, horph₁ k]
        simp
    | some pid =>
      have hpid : pid < s.next_id := hpar pid rfl
      have hpidmem : pid ∈ (addProps s.next_id properties (s.add_node name gem_type).1).nodes.map
          Prod.fst := by
        rw [hInv₂.keys, hnext₂]
        exact List.mem_range.mpr (by omega)
      obtain ⟨np, hnp⟩ := lookupA_isSome_of_mem_keys hpidmem
      have hnepid : pid ≠ s.next_id := Nat.ne_of_lt hpid
      have hInv₃ := add_child_inv _ pid s.next_id hInv₂ hnp hn₂ hfresh₂ hnepid
      have horph₃ := add_child_orphan _ pid s.next_id hnp hn₂ hnepid
      have hnext₃ : ((addProps s.next_id properties
          (s.add_node name gem_type).1).add_child pid s.next_id).next_id =
          s.next_id + 1 := hnext₂
      have hroot₃ : ((addProps s.next_id properties
          (s.add_node name gem_type).1).add_child pid s.next_id).root =
          (if s.root.isNone then some s.next_id else s.root) := hroot₂
      have hcomp : transformGemDecl (GemDecl.mk name gem_type properties children)
          (some pid) s =
          (match transformChildren children s.next_id
              ((addProps s.next_id properties
                (s.add_node name gem_type).1).add_child pid s.next_id) with
            | .ok s4 => .ok (s4, s.next_id)
            | .error e => .error e) := rfl
      obtain ⟨s₄, he₄, hInv₄, hn₄, hr₄, ho₄⟩ :=
        transformChildren_spec children s.next_id
          ((addProps s.next_id properties
            (s.add_node name gem_type).1).add_child pid s.next_id)
          hInv₃ (by rw [hnext₃]; omega)
          (by rw [hroot₃]; rcases s.root with _ | r <;> simp)
      refine ⟨s₄, by rw [hcomp, he₄], hInv₄, ?_, ?_, ?_⟩
      · rw [hn₄, hnext₃]
        show _ = s.next_id + countGemDecls (GemDecl.mk name gem_type properties children)
        rw [show countGemDecls (GemDecl.mk name gem_type properties children) =
          1 + countGemDeclList children from rfl]
        omega
      · rw [hr₄, hroot₃]
      · intro k
        rw [ho₄ k, horph₃ k, horph₂ k, horph₁ k]
        simp only [Option.some_ne_none, false_and, or_false]
        constructor
        · rintro ⟨horph | hknid, hkne⟩
          · exact horph
          · exact absurd hknid hkne
        · intro horph
          obtain ⟨n, hn, -⟩ := id horph
          exact ⟨Or.inl horph, Nat.ne_of_lt (inv_lookup_lt hInv hn)⟩

theorem transformChildren_spec : ∀ (cs : List GemDecl) (pid : Nat) (s : SceneIR),
    Inv s → pid < s.next_id → s.root.isSome →
    ∃ s', transformChildren cs pid s = Except.ok s' ∧
      Inv s' ∧
      s'.next_id = s.next_id + countGemDeclList cs ∧
      s'.root = s.root ∧
      (∀ k, orphanAt s' k ↔ orphanAt s k)
  | [], _, s, hInv, _, _ =>
    ⟨s, rfl, hInv, by simp [countGemDeclList], rfl, fun _ => Iff.rfl⟩
  | c :: rest, pid, s, hInv, hpid, hroot => by
    obtain ⟨s₁, he₁, hInv₁, hn₁, hr₁, ho₁⟩ :=
      transformGemDecl_spec c (some pid) s hInv
        (fun p hp => by rw [← Option.some.inj hp]; exact hpid)
    have hr₁' : s₁.root = s.root := by
      rw [hr₁]
      obtain ⟨r, hr⟩ := Option.isSome_iff_exists.mp hroot
      rw [hr]
      rfl
    obtain ⟨s₂, he₂, hInv₂, hn₂, hr₂, ho₂⟩ :=
      transformChildren_spec rest pid s₁ hInv₁
        (by rw [hn₁]; omega)
        (by rw [hr₁']; exact hroot)
    have hcomp : transformChildren (c :: rest) pid s =
        (match transformGemDecl c (some pid) s with
          | .ok (s', _) => transformChildren rest pid s'
          | .error e => .error e) := rfl
    refine ⟨s₂, by rw [hcomp, he₁]; exact he₂, hInv₂, ?_, hr₂.trans hr₁', ?_⟩
    · rw [hn₂, hn₁]
      show _ = s.next_id + countGemDeclList (c :: rest)
      rw [show countGemDeclList (c :: rest) = countGemDecls c + countGemDeclList rest from rfl]
      omega
    · intro k
      rw [ho₂ k, ho₁ k]
      simp

end

/-! ## Claim theorems about the transformer -/

theorem inv_new : Inv SceneIR.new := by
  refine ⟨rfl, ?_, ?_⟩
  · intro k n h
    simp [SceneIR.new, lookupA] at h
  · intro k n h
    simp [SceneIR.new, lookupA] at h

theorem orphan_new (k : Nat) : ¬ orphanAt SceneIR.new k := by
  rintro ⟨n, hn, -⟩
  simp [SceneIR.new, lookupA] at hn

/-- Specialization of the master lemma to the `transform` entry point. -/
theorem transform_spec (ast : GemFile) :
    ∃ ir, transform ast = Except.ok ir ∧
      Inv ir ∧
      ir.next_id = countGemDecls ast.root ∧
      ir.root = some 0 ∧
      (∀ k, orphanAt ir k ↔ k = 0) := by
  obtain ⟨s', he, hInv, hnext, hroot, horph⟩ :=
    transformGemDecl_spec ast.root none SceneIR.new inv_new (fun _ h => by cases h)
  refine ⟨s', ?_, hInv, ?_, ?_, ?_⟩
  · show (match transformGemDecl ast.root none SceneIR.new with
      | .ok (s, _) => Except.ok s
      | .error e => Except.error e) = Except.ok s'
    rw [he]
  · rw [hnext]
    simp [SceneIR.new]
  · rw [hroot]
    rfl
  · intro k
    rw [horph k]
    constructor
    · rintro (ho | ⟨-, hk⟩)
      · exact absurd ho (orphan_new k)
      · exact hk
    · intro hk
      exact Or.inr ⟨rfl, hk⟩

/-- C9: `Transformer::transform` never fails — for every scene AST (any
output of a successful `parse_scene`) it returns `Ok` with a `SceneIR`, and
it returns `Err` for no message whatsoever: the error branch of its
`Result` is unreachable. -/
theorem transform_never_fails (ast : GemFile) :
    (∃ ir, transform ast = Except.ok ir) ∧
    ∀ e, transform ast ≠ Except.error e := by
  obtain ⟨ir, he, -, -, -, -⟩ := transform_spec ast
  refine ⟨⟨ir, he⟩, fun e hc => ?_⟩
  rw [he] at hc
  cases hc

/-- C3: for every scene AST, `transform` produces an IR whose node map has
exactly as many entries as there are `GemDecl` nodes in the AST, and whose
root is the id allocated for the outermost declaration, namely `NodeId(0)`,
the first id allocated. -/
theorem transform_node_count (ast : GemFile) :
    ∃ ir, transform ast = Except.ok ir ∧
      ir.nodes.length = countGemDecls ast.root ∧
      ir.root = some 0 := by
  obtain ⟨ir, he, hInv, hnext, hroot, -⟩ := transform_spec ast
  refine ⟨ir, he, ?_, hroot⟩
  have hlen : ir.nodes.length = ir.next_id := by
    have hk := congrArg List.length hInv.keys
    simpa using hk
  rw [hlen, hnext]

/-- C4: in every `SceneIR` built by `transform`, the tree invariants hold:
exactly one node entry has `parent = none` and its id is the root id, and
for every node `n` and every `c` in `n.children`, the node stored at `c`
has `parent = some n.id`. -/
theorem transform_tree_invariants (ast : GemFile) :
    ∃ ir, transform ast = Except.ok ir ∧
      (∀ p ∈ ir.nodes, ∀ c ∈ (Prod.snd p).children,
        ∃ m, lookupA c ir.nodes = some m ∧ m.parent = some (Prod.snd p).id) ∧
      (∃! p : Nat × NodeIR, p ∈ ir.nodes ∧ (Prod.snd p).parent = none) ∧
      (∀ p ∈ ir.nodes, (Prod.snd p).parent = none → ir.root = some (Prod.snd p).id) := by
  obtain ⟨ir, he, hInv, hnext, hroot, horph⟩ := transform_spec ast
  have hnd : (ir.nodes.map Prod.fst).Nodup := by
    rw [hInv.keys]
    exact List.nodup_range _
  have hmemlook : ∀ p : Nat × NodeIR, p ∈ ir.nodes →
      lookupA (Prod.fst p) ir.nodes = some (Prod.snd p) := by
    intro p hp
    exact mem_lookupA_of_nodup hnd hp
  obtain ⟨n₀, hn₀, hn₀p⟩ := (horph 0).mpr rfl
  refine ⟨ir, he, ?_, ?_, ?_⟩
  · intro p hp c hc
    obtain ⟨m, hm, hmp⟩ := hInv.coh _ _ (hmemlook p hp) c hc
    have hid := hInv.ids _ _ (hmemlook p hp)
    exact ⟨m, hm, by rw [hmp, hid]⟩
  · refine ⟨(0, n₀), ⟨lookupA_mem hn₀, hn₀p⟩, ?_⟩
    rintro ⟨k, n⟩ ⟨hmem, hpar⟩
    have hk0 : k = 0 := (horph k).mp ⟨n, hmemlook _ hmem, hpar⟩
    subst hk0
    have := hmemlook _ hmem
    rw [hn₀] at this
    have hn : n = n₀ := (Option.some.inj this).symm
    rw [hn]
  · intro p hp hpar
    have hk0 : Prod.fst p = 0 := (horph _).mp ⟨Prod.snd p, hmemlook p hp, hpar⟩
    have hid := hInv.ids _ _ (hmemlook p hp)
    rw [hroot, hid, hk0]

/-- C10 (code bug witness): on the one-node scene `Root : Gem`, looking up
the path consisting of a single slash drives `find_by_path` into the
`parts[0]` index with an empty filtered segment list — the Rust code
panics there, modelled by the `Except.error` result. -/
theorem find_by_path_panics_on_slash :
    ∃ ir, transform ⟨⟨"Root", "Gem", [], []⟩⟩ = Except.ok ir ∧
      ir.find_by_path "/" = Except.error "index out of range: parts is empty" := by
  exact ⟨_, rfl, rfl⟩

/-! ## Claim C5: unterminated string literals -/

theorem readStringGo_unterminated :
    ∀ (s : List Char) (line col : Nat) (value : String),
      strTerminated s = false →
      ∃ c', readStringGo s line col value =
        Except.error ⟨"Unterminated string literal", line, c'⟩ := by
  intro s line col value
  induction s, line, col, value using Gem.readStringGo.induct with
  | case1 line col value => exact fun _ => ⟨col, rfl⟩
  | case2 rest line col value =>
    intro h
    simp [strTerminated] at h
  | case3 line col value => exact fun _ => ⟨col + 1, rfl⟩
  | case4 e rest line col value ih =>
    intro h
    have h' : strTerminated rest = false := by simpa [strTerminated] using h
    obtain ⟨c', hc⟩ := ih h'
    exact ⟨c', hc⟩
  | case5 c rest line col value hq hb1 hb2 ih =>
    intro h
    have h' : strTerminated rest = false := by
      rw [← strTerminated.eq_5 c rest hq hb1 hb2]
      exact h
    obtain ⟨c', hc⟩ := ih h'
    refine ⟨c', ?_⟩
    rw [readStringGo.eq_5 _ _ _ c rest hq hb1 hb2]
    exact hc

/-- C5: whenever `read_string` is entered at an opening double quote on
line `line` and the remaining input never closes the literal, the lexer
returns a `LexError` whose message names the literal as unterminated and
whose reported line is `line` — the line of the opening quote, not the line
reached at end of input (`read_string` never increments the line counter,
whatever newlines the unterminated literal spans). -/
theorem read_string_unterminated_reports_open_quote_line (s : List Char)
    (line col : Nat) (h : strTerminated s = false) :
    ∃ c', read_string s line col =
      Except.error ⟨"Unterminated string literal", line, c'⟩ :=
  readStringGo_unterminated s line (col + 1) "" h

/-- Witness for C5: the input continuing `a`, newline, `b` after an opening
quote on line 3 has no closing quote; the error reports line 3 even though
the end of input lies on line 4. -/
theorem read_string_unterminated_witness :
    strTerminated ['a', '\n', 'b'] = false ∧
    ∃ c', read_string ['a', '\n', 'b'] 3 7 =
      Except.error ⟨"Unterminated string literal", 3, c'⟩ :=
  ⟨by decide,
    read_string_unterminated_reports_open_quote_line ['a', '\n', 'b'] 3 7 (by decide)⟩

/-! ## Claim C2: expression precedence -/

set_option maxHeartbeats 2000000 in
/-- C2: the expression parser respects the documented precedence levels —
for any identifiers `a b c`, the token sequence of `a + b * c` parses to
`BinaryOp(Add, a, BinaryOp(Mul, b, c))` (never the reverse grouping, the
parse being a function), and the token sequence of `a == b && c` parses to
`BinaryOp(And, BinaryOp(Eq, a, b), c)`. -/
theorem expression_precedence :
    (∀ a b c : String,
      runParseExpression
          [Token.Ident a, Token.Plus, Token.Ident b, Token.Multiply, Token.Ident c] =
        Except.ok (Expr.BinaryOp BinOp.Add (Expr.Ident a)
            (Expr.BinaryOp BinOp.Mul (Expr.Ident b) (Expr.Ident c)),
          ⟨[Token.Ident a, Token.Plus, Token.Ident b, Token.Multiply, Token.Ident c], 5⟩)) ∧
    (∀ a b c : String,
      runParseExpression
          [Token.Ident a, Token.EqEq, Token.Ident b, Token.And, Token.Ident c] =
        Except.ok (Expr.BinaryOp BinOp.And
            (Expr.BinaryOp BinOp.Eq (Expr.Ident a) (Expr.Ident b)) (Expr.Ident c),
          ⟨[Token.Ident a, Token.EqEq, Token.Ident b, Token.And, Token.Ident c], 5⟩)) :=
  ⟨fun _ _ _ => rfl, fun _ _ _ => rfl⟩

/-! ## Claim C6: trailing tokens after the root declaration -/

/-- C6 counterexample: a token stream with a further token after the root
declaration's closing brace is not rejected — `parse_scene` returns `Ok`
with the extra token left unconsumed (cursor at 5 of 6). -/
theorem parse_scene_accepts_trailing_token :
    runParseScene [Token.Ident "Root", Token.Colon, Token.Ident "Gem", Token.LBrace,
        Token.RBrace, Token.Ident "Extra"] =
      Except.ok (⟨⟨"Root", "Gem", [], []⟩⟩,
        ⟨[Token.Ident "Root", Token.Colon, Token.Ident "Gem", Token.LBrace, Token.RBrace,
          Token.Ident "Extra"], 5⟩) := rfl

/-- C6 amended: `parse_scene` succeeds on one complete
`Name : TypeName { ... }` declaration with an uppercase-leading name, and it
does not examine the cursor afterwards — appending any further token after
the root declaration's closing brace still yields `Ok` with the same
`GemFile` and the trailing token left unconsumed, rather than a
`ParseError`. -/
theorem parse_scene_single_decl_ignores_trailing :
    (runParseScene [Token.Ident "Root", Token.Colon, Token.Ident "Gem", Token.LBrace,
        Token.RBrace] =
      Except.ok (⟨⟨"Root", "Gem", [], []⟩⟩,
        ⟨[Token.Ident "Root", Token.Colon, Token.Ident "Gem", Token.LBrace, Token.RBrace],
          5⟩)) ∧
    (∀ t : Token,
      runParseScene ([Token.Ident "Root", Token.Colon, Token.Ident "Gem", Token.LBrace,
          Token.RBrace] ++ [t]) =
        Except.ok (⟨⟨"Root", "Gem", [], []⟩⟩,
          ⟨[Token.Ident "Root", Token.Colon, Token.Ident "Gem", Token.LBrace, Token.RBrace]
            ++ [t], 5⟩)) :=
  ⟨rfl, fun _ => rfl⟩

/-! ## Claim C7: statements starting with an identifier -/

/-- C7 counterexample: on the statement tokens of `a + b`, the statement
parser yields `ExprStmt(Ident a)` with only one token consumed, while the
full precedence-climbing expression parser on the same tokens yields
`BinaryOp(Add, a, b)` — so `parse_statement` does not produce the full
expression parse. -/
theorem parse_statement_not_full_expression :
    runParseStatement [Token.Ident "a", Token.Plus, Token.Ident "b"] =
      Except.ok (Stmt.ExprStmt (Expr.Ident "a"),
        ⟨[Token.Ident "a", Token.Plus, Token.Ident "b"], 1⟩) ∧
    runParseExpression [Token.Ident "a", Token.Plus, Token.Ident "b"] =
      Except.ok (Expr.BinaryOp BinOp.Add (Expr.Ident "a") (Expr.Ident "b"),
        ⟨[Token.Ident "a", Token.Plus, Token.Ident "b"], 3⟩) ∧
    Stmt.ExprStmt (Expr.Ident "a") ≠
      Stmt.ExprStmt (Expr.BinaryOp BinOp.Add (Expr.Ident "a") (Expr.Ident "b")) :=
  ⟨rfl, rfl, by simp⟩

/-- C7 amended: a statement whose leading token is an identifier not
followed by `=` parses through `parse_call_or_property` only: when the next
token is also neither `(` nor `.`, the result is `ExprStmt` of the bare
identifier with exactly one token consumed, leaving the remainder of any
longer expression unparsed (for example, statement tokens `a + b` yield
`ExprStmt(Ident a)` with `+ b` unconsumed). -/
theorem parse_statement_bare_ident_stmt (fuel : Nat) (name : String) (st : ParserState)
    (hcur : st.current = some (Token.Ident name))
    (hne : st.advanceState.current ≠ some Token.Eq)
    (hnp : st.advanceState.current ≠ some Token.LParen)
    (hnd : st.advanceState.current ≠ some Token.Dot) :
    parseStatement (fuel + 1) st =
      Except.ok (Stmt.ExprStmt (Expr.Ident name), st.advanceState) := by
  simp only [parseStatement, hcur]
  rcases e : st.advanceState.current with _ | tok
  · simp only [e, parseCallOrProperty]
  · rw [e] at hne hnp hnd
    cases tok <;> simp_all [parseCallOrProperty, e]

/-- Witness for C7 amended: on the statement tokens of `a + b` (the token
after the identifier is `+`), the parse yields `ExprStmt(Ident a)` with the
cursor moved one token. -/
theorem parse_statement_bare_ident_stmt_witness :
    (⟨[Token.Ident "a", Token.Plus, Token.Ident "b"], 0⟩ : ParserState).current =
        some (Token.Ident "a") ∧
    parseStatement 15 ⟨[Token.Ident "a", Token.Plus, Token.Ident "b"], 0⟩ =
      Except.ok (Stmt.ExprStmt (Expr.Ident "a"),
        ParserState.advanceState ⟨[Token.Ident "a", Token.Plus, Token.Ident "b"], 0⟩) :=
  ⟨rfl,
    parse_statement_bare_ident_stmt 14 "a" _ rfl
      (by intro h; simp [ParserState.advanceState, ParserState.current] at h)
      (by intro h; simp [ParserState.advanceState, ParserState.current] at h)
      (by intro h; simp [ParserState.advanceState, ParserState.current] at h)⟩
